import Mathlib

set_option maxRecDepth 10000

deriving instance DecidableEq for Except

namespace Monitor

/-- Whitespace test used both for trimming and for the whitespace class
of the entry pattern, modelled as ASCII whitespace; sensor output uses no
other whitespace characters. -/
def isWs (c : Char) : Bool := c.isWhitespace

/-- Remove leading and trailing whitespace from a character list. -/
def trimChars (s : List Char) : List Char :=
  ((s.dropWhile isWs).reverse.dropWhile isWs).reverse

/-- Trimming of a string, as applied to every input line. -/
def trimStr (s : String) : String := String.mk (trimChars s.data)

/-- Split at newline characters, stripping a carriage return that
precedes a newline, with no trailing empty line. -/
def rustLinesAux (acc : List Char) : List Char → List (List Char)
  | [] => if acc.isEmpty then [] else [acc.reverse]
  | '\n' :: rest =>
    (match acc with
      | '\r' :: a => a.reverse
      | _ => acc.reverse) :: rustLinesAux [] rest
  | c :: rest => rustLinesAux (c :: acc) rest

/-- The line iterator over the raw input text. -/
def rustLines (s : String) : List String :=
  (rustLinesAux [] s.data).map String.mk

/-- The unit alternatives of the value group, in the order they are tried. -/
def unitTokens : List (List Char) :=
  ["°C".data, "RPM".data, "V".data, "W".data, "%".data, "mA".data]

/-- The numeric core of the value group: optional sign, digits, optional
dot, more digits.  Its quantifiers are forced: no later token of the
pattern can consume a digit or a dot. -/
def numParse (t : List Char) : Option (List Char × List Char) :=
  let sp : List Char × List Char :=
    match t with
    | c :: r => if c = '+' ∨ c = '-' then ([c], r) else ([], t)
    | [] => ([], [])
  let d1 := sp.2.takeWhile Char.isDigit
  let t2 := sp.2.dropWhile Char.isDigit
  if d1.isEmpty then none
  else
    let dp : List Char × List Char :=
      match t2 with
      | '.' :: r => (['.'], r)
      | _ => ([], t2)
    let d2 := dp.2.takeWhile Char.isDigit
    let t4 := dp.2.dropWhile Char.isDigit
    some (sp.1 ++ d1 ++ dp.1 ++ d2, t4)

/-- The optional trailing annotation group anchored at the end of the
line: one or more whitespace characters, an open parenthesis, and the
non-greedy inner text ending at a close parenthesis that is the final
character of the line. -/
def infoOf (t : List Char) : Option (List Char) :=
  match t with
  | c :: rest =>
    if isWs c then
      match rest.dropWhile isWs with
      | '(' :: v =>
        if 2 ≤ v.length ∧ v.getLast? = some ')' ∧ v.dropLast.all (· != '\n') then
          some v.dropLast
        else none
      | _ => none
    else none
  | [] => none

/-- Candidate extensions of the value group by the optional single
whitespace and the optional unit, in the order the pattern tries them:
whitespace taken before not taken, each unit before no unit. -/
def extCandidates (t : List Char) : List (List Char × List Char) :=
  let wsOpts : List (List Char × List Char) :=
    match t with
    | c :: r => if isWs c then [([c], r), ([], t)] else [([], t)]
    | [] => [([], [])]
  wsOpts.flatMap fun p =>
    (unitTokens.filterMap fun u =>
      if u.isPrefixOf p.2 then some (p.1 ++ u, p.2.drop u.length) else none) ++ [p]

/-- Close the match: the first candidate whose remainder is either the
annotation group or the empty remainder wins, the annotation being
preferred. -/
def finishEntry (num : List Char) :
    List (List Char × List Char) → Option (List Char × Option (List Char))
  | [] => none
  | (ext, rest) :: more =>
    match infoOf rest with
    | some info => some (num ++ ext, some info)
    | none => if rest.isEmpty then some (num ++ ext, none) else finishEntry num more

/-- What the entry pattern matches after the key's colon: one or more
whitespace characters (maximal, since the value starts with a sign or a
digit) and then the value group followed by the optional annotation. -/
def afterColon (t : List Char) : Option (List Char × Option (List Char)) :=
  match t with
  | c :: r =>
    if isWs c then
      match numParse (r.dropWhile isWs) with
      | some nt => finishEntry nt.1 (extCandidates nt.2)
      | none => none
    else none
  | [] => none

/-- The non-greedy key of the entry pattern: consume one character at a
time, never a newline, and stop at the first position where a colon is
followed by a remainder accepted by `afterColon`. -/
def keyLoop (acc : List Char) : List Char → Option (List Char × List Char × Option (List Char))
  | [] => none
  | c :: rest =>
    if c = '\n' then none
    else
      match rest with
      | c2 :: r2 =>
        if c2 = ':' then
          match afterColon r2 with
          | some vi => some (acc ++ [c], vi.1, vi.2)
          | none => keyLoop (acc ++ [c]) rest
        else keyLoop (acc ++ [c]) rest
      | [] => none

/-- The key, value and optional info groups captured by the anchored
entry pattern, or `none` when the line does not match end to end. -/
def entryCaptures (line : String) : Option (String × String × Option String) :=
  match keyLoop [] line.data with
  | some kvi => some (String.mk kvi.1, String.mk kvi.2.1, kvi.2.2.map String.mk)
  | none => none

structure SensorEntry where
  key : String
  value : String
  additional_info : Option String
deriving DecidableEq, Repr

structure SensorSection where
  name : String
  adapter : String
  entries : List SensorEntry
deriving DecidableEq, Repr

/-- Test for the adapter-line marker at the start of a trimmed line. -/
def startsWithAdapter (t : String) : Bool := "Adapter:".data.isPrefixOf t.data

/-- Test for a colon anywhere in a trimmed line. -/
def containsColon (t : String) : Bool := t.data.contains ':'

/-- Removal of every occurrence of the adapter marker, scanning left to
right without overlap. -/
def replaceAdapter : List Char → List Char
  | 'A' :: 'd' :: 'a' :: 'p' :: 't' :: 'e' :: 'r' :: ':' :: rest => replaceAdapter rest
  | c :: cs => c :: replaceAdapter cs
  | [] => []

/-- The adapter value stored for an adapter line: marker occurrences
removed from the trimmed line, then re-trimmed. -/
def adapterValOf (raw : String) : String :=
  String.mk (trimChars (replaceAdapter (trimStr raw).data))

/-- One step of the line loop, acting on the pair of sealed sections and
the optional open section. -/
def processLine (st : List SensorSection × Option SensorSection) (raw : String) :
    List SensorSection × Option SensorSection :=
  let line := trimStr raw
  if line = "" then st
  else if ¬ containsColon line ∧ ¬ startsWithAdapter line then
    (st.1 ++ st.2.toList, some ⟨line, "", []⟩)
  else
    match st.2 with
    | none => st
    | some sec =>
      if startsWithAdapter line then
        (st.1, some ⟨sec.name, String.mk (trimChars (replaceAdapter line.data)), sec.entries⟩)
      else
        match entryCaptures line with
        | some kvi =>
          (st.1, some ⟨sec.name, sec.adapter,
            sec.entries ++ [⟨kvi.1, String.mk (trimChars kvi.2.1.data), kvi.2.2⟩]⟩)
        | none => st

/-- Seal the open section, if any, at the end of the loop. -/
def finalize (st : List SensorSection × Option SensorSection) : List SensorSection :=
  st.1 ++ st.2.toList

/-- All sections produced by the line loop on a list of lines. -/
def finalSections (ls : List String) : List SensorSection :=
  finalize (ls.foldl processLine ([], none))

/-- The parsing engine on a list of lines: the sections of the loop, or
the no-data error when there are none. -/
def parseLines (ls : List String) : Except String (List SensorSection) :=
  if finalSections ls = [] then .error "No sensor data found"
  else .ok (finalSections ls)

/-- `parse_sensor_output`: line splitting followed by the line loop. -/
def parse_sensor_output (input : String) : Except String (List SensorSection) :=
  parseLines (rustLines input)

/-- Outcome of running the external command. -/
inductive CommandOutcome where
  | launchFailure (msg : String)
  | exited (success : Bool) (stdout stderr : String)

/-- `read_sensor_data`: map a command outcome to a parse result or a
descriptive error. -/
def read_sensor_data (oc : CommandOutcome) : Except String (List SensorSection) :=
  match oc with
  | .launchFailure e => .error ("Failed to execute sensors command: " ++ e)
  | .exited false _ err => .error ("sensors command failed: " ++ err)
  | .exited true out _ => parse_sensor_output out

inductive Message where
  | Refresh

structure SensorViewer where
  sensor_data : Except String (List SensorSection)

/-- The refresh transition: on a `Refresh` message the single state slot
is overwritten with the freshly produced result. -/
def SensorViewer.update (st : SensorViewer) (m : Message) (oc : CommandOutcome) : SensorViewer :=
  match m with
  | .Refresh => { st with sensor_data := read_sensor_data oc }

/-- Modelled on the claim wording for the key: the text of the line up
to, and not including, the first colon that is followed by a whitespace
character. -/
def upToColonWs : List Char → Option (List Char)
  | [] => none
  | c :: rest =>
    match rest with
    | c2 :: _ =>
      if c = ':' ∧ isWs c2 then some []
      else (upToColonWs rest).map (c :: ·)
    | [] => none

/-- Modelled on the claim wording for the adapter line: remove one
leading occurrence of the marker, leaving other text alone. -/
def stripAdapterOnce (l : List Char) : List Char :=
  if "Adapter:".data.isPrefixOf l then l.drop "Adapter:".data.length else l

/-- A header line as the specification describes it: non-empty after
trimming and containing no colon. -/
def isHeaderT (l : String) : Bool := !(trimStr l == "") && !containsColon (trimStr l)

/-- Negation of the header test, the predicate delimiting a section's
block of lines. -/
def notHeaderB (l : String) : Bool := !isHeaderT l

/-- The entry, if any, contributed by one line of a section's block. -/
def entryOfLine (raw : String) : Option SensorEntry :=
  if trimStr raw = "" then none
  else if startsWithAdapter (trimStr raw) then none
  else
    match entryCaptures (trimStr raw) with
    | some kvi => some ⟨kvi.1, String.mk (trimChars kvi.2.1.data), kvi.2.2⟩
    | none => none

/-- The adapter value after a section's block of lines: the last adapter
line wins, a block without adapter lines keeps the previous value. -/
def adapterFold (a : String) (block : List String) : String :=
  block.foldl
    (fun acc l =>
      if trimStr l ≠ "" ∧ startsWithAdapter (trimStr l) then adapterValOf l else acc) a

/-- Extend an open section by a block of non-header lines. -/
def extendSec (sec : SensorSection) (block : List String) : SensorSection :=
  ⟨sec.name, adapterFold sec.adapter block, sec.entries ++ block.filterMap entryOfLine⟩

/-- The specification's description of the whole parse: split the lines
at header lines, in order of first appearance, and build one section per
header from the block that follows it. -/
def specParse : List String → List SensorSection
  | [] => []
  | l :: ls =>
    if isHeaderT l then
      extendSec ⟨trimStr l, "", []⟩ (ls.takeWhile notHeaderB) ::
        specParse (ls.dropWhile notHeaderB)
    else specParse ls
termination_by ls => ls.length
decreasing_by
  · simpa using Nat.lt_succ_of_le ((List.dropWhile_sublist notHeaderB).length_le)
  · simp

/-- Continuation of the parse from an optional open section. -/
def contFrom : Option SensorSection → List String → List SensorSection
  | none, ls => specParse ls
  | some sec, ls =>
    extendSec sec (ls.takeWhile notHeaderB) :: specParse (ls.dropWhile notHeaderB)

lemma dropWhile_dropWhile_self (p : Char → Bool) (l : List Char) :
    (l.dropWhile p).dropWhile p = l.dropWhile p := by
  induction l with
  | nil => rfl
  | cons c t ih =>
    by_cases h : p c
    · rw [List.dropWhile_cons_of_pos h, ih]
    · rw [List.dropWhile_cons_of_neg h, List.dropWhile_cons_of_neg h]

lemma head_false_of_dropWhile_self {p : Char → Bool} {c : Char} {t : List Char}
    (h : (c :: t).dropWhile p = c :: t) : p c = false := by
  by_cases hp : p c
  · rw [List.dropWhile_cons_of_pos hp] at h
    have h1 : (t.dropWhile p).length ≤ t.length := (List.dropWhile_sublist p).length_le
    have h2 := congrArg List.length h
    simp at h2
    omega
  · simpa using hp

lemma dropWhile_eq_self_of_prefix {p : Char → Bool} {y z : List Char}
    (hy : y.dropWhile p = y) (hz : z <+: y) : z.dropWhile p = z := by
  cases z with
  | nil => rfl
  | cons c t =>
    obtain ⟨s, hs⟩ := hz
    have hc : p c = false := by
      apply head_false_of_dropWhile_self (t := t ++ s)
      rw [List.cons_append] at hs
      rw [hs, hy]
    rw [List.dropWhile_cons_of_neg (by simp [hc])]

lemma trimChars_dropWhile (l : List Char) :
    (trimChars l).dropWhile isWs = trimChars l := by
  apply dropWhile_eq_self_of_prefix (y := l.dropWhile isWs)
  · exact dropWhile_dropWhile_self isWs l
  · rw [trimChars]
    have h := List.dropWhile_suffix (l := (l.dropWhile isWs).reverse) isWs
    have h2 := List.reverse_prefix.mpr h
    simpa using h2

lemma trimChars_idem (l : List Char) :
    trimChars (trimChars l) = trimChars l := by
  have h1 : trimChars (trimChars l) =
      ((trimChars l).reverse.dropWhile isWs).reverse := by
    rw [trimChars, trimChars_dropWhile]
  rw [h1, trimChars, List.reverse_reverse, dropWhile_dropWhile_self]

lemma trimStr_data (s : String) : (trimStr s).data = trimChars s.data := rfl

lemma trimStr_mk_trimChars (l : List Char) :
    trimStr (String.mk (trimChars l)) = String.mk (trimChars l) := by
  rw [trimStr]
  show String.mk (trimChars (trimChars l)) = String.mk (trimChars l)
  rw [trimChars_idem]

lemma adapter_marker_colon {t : String}
    (h : startsWithAdapter t = true) : containsColon t = true := by
  rw [startsWithAdapter] at h
  rw [containsColon]
  have hp : "Adapter:".data <+: t.data := List.isPrefixOf_iff_prefix.mp h
  obtain ⟨s, hs⟩ := hp
  have : ':' ∈ t.data := by
    rw [← hs]
    apply List.mem_append_left
    decide
  exact List.elem_iff.mpr this

lemma containsColon_ne_empty {t : String} (h : containsColon t = true) : t ≠ "" := by
  intro he
  rw [he] at h
  simp [containsColon] at h

lemma startsWithAdapter_ne_empty {t : String}
    (h : startsWithAdapter t = true) : t ≠ "" :=
  containsColon_ne_empty (adapter_marker_colon h)

lemma processLine_empty (st : List SensorSection × Option SensorSection) (raw : String)
    (h : trimStr raw = "") : processLine st raw = st := by
  rw [processLine]
  simp [h]

lemma processLine_header (st : List SensorSection × Option SensorSection) (raw : String)
    (h1 : trimStr raw ≠ "") (h2 : containsColon (trimStr raw) = false) :
    processLine st raw = (st.1 ++ st.2.toList, some ⟨trimStr raw, "", []⟩) := by
  have h3 : startsWithAdapter (trimStr raw) = false := by
    by_contra hx
    rw [Bool.not_eq_false] at hx
    rw [adapter_marker_colon hx] at h2
    simp at h2
  rw [processLine]
  simp [h1, h2, h3]

lemma processLine_colon_none (st : List SensorSection × Option SensorSection) (raw : String)
    (h2 : containsColon (trimStr raw) = true) (hn : st.2 = none) :
    processLine st raw = st := by
  have h1 : trimStr raw ≠ "" := containsColon_ne_empty h2
  rw [processLine]
  simp [h1, h2, hn]

lemma processLine_adapter (st : List SensorSection × Option SensorSection) (raw : String)
    (sec : SensorSection)
    (ha : startsWithAdapter (trimStr raw) = true) (hs : st.2 = some sec) :
    processLine st raw = (st.1, some ⟨sec.name, adapterValOf raw, sec.entries⟩) := by
  have h1 : trimStr raw ≠ "" := startsWithAdapter_ne_empty ha
  have h2 : containsColon (trimStr raw) = true := adapter_marker_colon ha
  rw [processLine]
  simp [h1, h2, ha, hs, adapterValOf]

lemma processLine_entry (S : List SensorSection) (c : Option SensorSection) (raw : String)
    (sec : SensorSection)
    (hc : containsColon (trimStr raw) = true)
    (hna : startsWithAdapter (trimStr raw) = false) (hs : c = some sec) :
    processLine (S, c) raw =
      (S, some ⟨sec.name, sec.adapter, sec.entries ++ (entryOfLine raw).toList⟩) := by
  subst hs
  have h1 : trimStr raw ≠ "" := containsColon_ne_empty hc
  rw [processLine, entryOfLine]
  cases hec : entryCaptures (trimStr raw) with
  | some kvi => simp [h1, hc, hna, hec]
  | none => simp [h1, hc, hna, hec]

lemma processLine_fst (S : List SensorSection) (c : Option SensorSection) (l : String) :
    processLine (S, c) l =
      (S ++ (processLine ([], c) l).1, (processLine ([], c) l).2) := by
  by_cases h0 : trimStr l = ""
  · rw [processLine_empty _ _ h0, processLine_empty _ _ h0]
    simp
  · cases hc : containsColon (trimStr l) with
    | false =>
      rw [processLine_header _ _ h0 hc, processLine_header _ _ h0 hc]
      simp
    | true =>
      cases c with
      | none =>
        rw [processLine_colon_none _ _ hc rfl, processLine_colon_none _ _ hc rfl]
        simp
      | some sec =>
        cases ha : startsWithAdapter (trimStr l) with
        | true =>
          rw [processLine_adapter _ _ sec ha rfl, processLine_adapter _ _ sec ha rfl]
          simp
        | false =>
          rw [processLine_entry _ _ _ sec hc ha rfl, processLine_entry _ _ _ sec hc ha rfl]
          simp

lemma foldl_processLine_fst (ls : List String) :
    ∀ (S : List SensorSection) (c : Option SensorSection),
      ls.foldl processLine (S, c) =
        (S ++ (ls.foldl processLine ([], c)).1, (ls.foldl processLine ([], c)).2) := by
  induction ls with
  | nil => intro S c; simp
  | cons l ls ih =>
    intro S c
    rw [List.foldl_cons, List.foldl_cons, processLine_fst]
    rcases hp : processLine ([], c) l with ⟨δ, c1⟩
    show List.foldl processLine (S ++ δ, c1) ls =
      (S ++ (List.foldl processLine (δ, c1) ls).1, (List.foldl processLine (δ, c1) ls).2)
    rw [ih (S ++ δ) c1, ih δ c1, List.append_assoc]

lemma notHeaderB_true_iff (l : String) :
    notHeaderB l = true ↔ trimStr l = "" ∨ containsColon (trimStr l) = true := by
  rw [notHeaderB, isHeaderT]
  cases hc : containsColon (trimStr l) <;> by_cases h0 : trimStr l = "" <;> simp [h0]

lemma extendSec_nil (sec : SensorSection) : extendSec sec [] = sec := by
  rw [extendSec, adapterFold]
  simp

lemma extendSec_cons_skip (sec : SensorSection) (l : String) (blk : List String)
    (h : trimStr l = "") : extendSec sec (l :: blk) = extendSec sec blk := by
  have he : entryOfLine l = none := by rw [entryOfLine]; simp [h]
  rw [extendSec, extendSec, adapterFold, adapterFold, List.foldl_cons,
    List.filterMap_cons_none he, if_neg]
  simp [h]

lemma extendSec_cons_adapter (sec : SensorSection) (l : String) (blk : List String)
    (ha : startsWithAdapter (trimStr l) = true) :
    extendSec sec (l :: blk) =
      extendSec ⟨sec.name, adapterValOf l, sec.entries⟩ blk := by
  have h0 : trimStr l ≠ "" := startsWithAdapter_ne_empty ha
  have he : entryOfLine l = none := by rw [entryOfLine]; simp [h0, ha]
  rw [extendSec, extendSec, adapterFold, adapterFold, List.foldl_cons,
    List.filterMap_cons_none he, if_pos ⟨h0, ha⟩]

lemma extendSec_cons_entry (sec : SensorSection) (l : String) (blk : List String)
    (hna : startsWithAdapter (trimStr l) = false) :
    extendSec sec (l :: blk) =
      extendSec ⟨sec.name, sec.adapter, sec.entries ++ (entryOfLine l).toList⟩ blk := by
  rw [extendSec, extendSec, adapterFold, adapterFold, List.foldl_cons, if_neg]
  · rw [List.filterMap_cons]
    cases he : entryOfLine l with
    | some e => simp [List.append_assoc]
    | none => simp
  · rintro ⟨-, hx⟩
    rw [hna] at hx
    simp at hx

lemma specParse_nil : specParse [] = [] := by rw [specParse]

lemma specParse_cons (l : String) (ls : List String) :
    specParse (l :: ls) =
      if isHeaderT l then
        extendSec ⟨trimStr l, "", []⟩ (ls.takeWhile notHeaderB) ::
          specParse (ls.dropWhile notHeaderB)
      else specParse ls := by
  rw [specParse]

lemma finalize_foldl (ls : List String) :
    ∀ (S : List SensorSection) (c : Option SensorSection),
      finalize (ls.foldl processLine (S, c)) = S ++ contFrom c ls := by
  induction ls with
  | nil =>
    intro S c
    cases c with
    | none => simp [finalize, contFrom, specParse_nil]
    | some sec => simp [finalize, contFrom, specParse_nil, extendSec_nil]
  | cons l ls ih =>
    intro S c
    rw [List.foldl_cons]
    by_cases h0 : trimStr l = ""
    · rw [processLine_empty _ _ h0, ih S c]
      congr 1
      cases c with
      | none =>
        rw [contFrom, contFrom, specParse_cons, if_neg]
        simp [isHeaderT, h0]
      | some sec =>
        have hnh : notHeaderB l = true := (notHeaderB_true_iff l).mpr (Or.inl h0)
        rw [contFrom, contFrom, List.takeWhile_cons_of_pos hnh,
          List.dropWhile_cons_of_pos hnh, extendSec_cons_skip sec l _ h0]
    · cases hc : containsColon (trimStr l) with
      | false =>
        have hH : isHeaderT l = true := by
          rw [isHeaderT, hc]
          simp [h0]
        rw [processLine_header _ _ h0 hc]
        rw [ih ((S, c).1 ++ (S, c).2.toList) (some ⟨trimStr l, "", []⟩)]
        cases c with
        | none =>
          rw [contFrom, contFrom, specParse_cons, if_pos hH]
          simp
        | some sec =>
          have hnh : notHeaderB l = false := by simp [notHeaderB, hH]
          rw [contFrom, contFrom, List.takeWhile_cons_of_neg (by simp [hnh]),
            List.dropWhile_cons_of_neg (by simp [hnh]), extendSec_nil,
            specParse_cons, if_pos hH]
          simp
      | true =>
        have hnh : notHeaderB l = true := (notHeaderB_true_iff l).mpr (Or.inr hc)
        cases c with
        | none =>
          rw [processLine_colon_none _ _ hc rfl, ih S none]
          rw [contFrom, contFrom, specParse_cons, if_neg (by simp [isHeaderT, hc])]
        | some sec =>
          cases ha : startsWithAdapter (trimStr l) with
          | true =>
            rw [processLine_adapter _ _ sec ha rfl,
              ih ((S, some sec).1) (some ⟨sec.name, adapterValOf l, sec.entries⟩)]
            rw [contFrom, contFrom, List.takeWhile_cons_of_pos hnh,
              List.dropWhile_cons_of_pos hnh, extendSec_cons_adapter sec l _ ha]
          | false =>
            rw [processLine_entry S (some sec) l sec hc ha rfl,
              ih S (some ⟨sec.name, sec.adapter, sec.entries ++ (entryOfLine l).toList⟩)]
            rw [contFrom, contFrom, List.takeWhile_cons_of_pos hnh,
              List.dropWhile_cons_of_pos hnh, extendSec_cons_entry sec l _ ha]

lemma finalSections_eq_specParse (ls : List String) :
    finalSections ls = specParse ls := by
  rw [finalSections, finalize_foldl ls [] none, contFrom]
  simp

lemma keyLoop_sound (s : List Char) :
    ∀ (acc k v : List Char) (i : Option (List Char)),
      keyLoop acc s = some (k, v, i) →
      ∃ t r, s = t ++ ':' :: r ∧ k = acc ++ t ∧ t ≠ [] ∧
        afterColon r = some (v, i) ∧
        ∀ j, 1 ≤ j → j < t.length → s.get? j = some ':' →
          afterColon (s.drop (j + 1)) = none := by
  induction s with
  | nil =>
    intro acc k v i h
    rw [keyLoop.eq_def] at h
    exact absurd h (by simp)
  | cons c rest ih =>
    intro acc k v i h
    rw [keyLoop.eq_def] at h
    simp only at h
    by_cases hnl : c = '\n'
    · rw [if_pos hnl] at h
      exact absurd h (by simp)
    · rw [if_neg hnl] at h
      cases rest with
      | nil => exact absurd h (by simp)
      | cons c2 r2 =>
        simp only at h
        by_cases h2 : c2 = ':'
        · rw [if_pos h2] at h
          subst h2
          cases hA : afterColon r2 with
          | some vi =>
            rw [hA] at h
            simp only [Option.some.injEq, Prod.mk.injEq] at h
            refine ⟨[c], r2, by simp, h.1.symm, by simp, ?_, ?_⟩
            · rw [hA, ← h.2.1, ← h.2.2]
            · intro j hj1 hjlt _
              simp at hjlt
              omega
          | none =>
            rw [hA] at h
            obtain ⟨t', r, hs, hk, hne, hac, hmin⟩ := ih (acc ++ [c]) k v i h
            refine ⟨c :: t', r, by rw [hs, List.cons_append], by rw [hk, List.append_assoc]; rfl, by simp, hac, ?_⟩
            intro j hj1 hjlt hget
            cases j with
            | zero => omega
            | succ j' =>
              rw [List.get?_cons_succ] at hget
              rw [List.drop_succ_cons]
              cases j' with
              | zero => exact hA
              | succ j'' =>
                have := hmin (j'' + 1) (by omega) (by simp at hjlt; omega) hget
                simpa using this
        · rw [if_neg h2] at h
          obtain ⟨t', r, hs, hk, hne, hac, hmin⟩ := ih (acc ++ [c]) k v i h
          refine ⟨c :: t', r, by rw [hs, List.cons_append], by rw [hk, List.append_assoc]; rfl, by simp, hac, ?_⟩
          intro j hj1 hjlt hget
          cases j with
          | zero => omega
          | succ j' =>
            rw [List.get?_cons_succ] at hget
            rw [List.drop_succ_cons]
            cases j' with
            | zero =>
              simp only [List.get?_cons_zero, Option.some.injEq] at hget
              exact absurd hget h2
            | succ j'' =>
              have := hmin (j'' + 1) (by omega) (by simp at hjlt; omega) hget
              simpa using this

lemma entryCaptures_sound (line k v : String) (i : Option String)
    (h : entryCaptures line = some (k, v, i)) :
    ∃ r, line.data = k.data ++ ':' :: r ∧ k.data ≠ [] ∧
      (∃ iL, afterColon r = some (v.data, iL) ∧ i = iL.map String.mk) ∧
      ∀ j, 1 ≤ j → j < k.data.length → line.data.get? j = some ':' →
        afterColon (line.data.drop (j + 1)) = none := by
  rw [entryCaptures] at h
  cases hk : keyLoop [] line.data with
  | none => rw [hk] at h; exact absurd h (by simp)
  | some kvi =>
    rw [hk] at h
    simp only [Option.some.injEq, Prod.mk.injEq] at h
    obtain ⟨h1, h2, h3⟩ := h
    obtain ⟨t, r, hs, hkk, hne, hac, hmin⟩ :=
      keyLoop_sound line.data [] kvi.1 kvi.2.1 kvi.2.2 hk
    have hkd : k.data = t := by rw [← h1, hkk]; rfl
    have hvd : v.data = kvi.2.1 := by rw [← h2]
    refine ⟨r, by rw [hkd]; exact hs, by rw [hkd]; exact hne,
      ⟨kvi.2.2, by rw [hvd]; exact hac, h3.symm⟩, ?_⟩
    intro j hj1 hjlt hget
    exact hmin j hj1 (by rw [hkd] at hjlt; exact hjlt) hget

/-- The shape the specification claims for every stored entry: a fully
trimmed value and a key with no leading whitespace. -/
def entryTrimmed (e : SensorEntry) : Prop :=
  trimStr e.value = e.value ∧ e.key.data.dropWhile isWs = e.key.data

lemma entryOfLine_trimmed (raw : String) (e : SensorEntry)
    (h : entryOfLine raw = some e) : entryTrimmed e := by
  rw [entryOfLine] at h
  by_cases h0 : trimStr raw = ""
  · rw [if_pos h0] at h; exact absurd h (by simp)
  · rw [if_neg h0] at h
    by_cases ha : startsWithAdapter (trimStr raw) = true
    · rw [if_pos (by simp [ha])] at h; exact absurd h (by simp)
    · rw [if_neg (by simpa using ha)] at h
      cases hec : entryCaptures (trimStr raw) with
      | none => rw [hec] at h; exact absurd h (by simp)
      | some kvi =>
        rw [hec] at h
        simp only [Option.some.injEq] at h
        obtain ⟨r, hs, hne, -, -⟩ :=
          entryCaptures_sound (trimStr raw) kvi.1 kvi.2.1 kvi.2.2 hec
        constructor
        · rw [← h]
          exact trimStr_mk_trimChars kvi.2.1.data
        · rw [← h]
          show kvi.1.data.dropWhile isWs = kvi.1.data
          have hdw : ((trimStr raw).data).dropWhile isWs = (trimStr raw).data := by
            rw [trimStr_data]
            exact trimChars_dropWhile raw.data
          cases hkd : kvi.1.data with
          | nil => exact absurd hkd hne
          | cons d t' =>
            rw [hkd] at hs
            rw [hs, List.cons_append] at hdw
            have hd : isWs d = false := head_false_of_dropWhile_self hdw
            rw [List.dropWhile_cons_of_neg (by simp [hd])]

lemma processLine_trimmed (S : List SensorSection) (c : Option SensorSection) (raw : String)
    (hS : ∀ sec ∈ S, ∀ e ∈ sec.entries, entryTrimmed e)
    (hc : ∀ sec ∈ c.toList, ∀ e ∈ sec.entries, entryTrimmed e) :
    (∀ sec ∈ (processLine (S, c) raw).1, ∀ e ∈ sec.entries, entryTrimmed e) ∧
    (∀ sec ∈ (processLine (S, c) raw).2.toList, ∀ e ∈ sec.entries, entryTrimmed e) := by
  by_cases h0 : trimStr raw = ""
  · rw [processLine_empty _ _ h0]
    exact ⟨hS, hc⟩
  · cases hcol : containsColon (trimStr raw) with
    | false =>
      rw [processLine_header _ _ h0 hcol]
      refine ⟨?_, ?_⟩
      · intro sec hsec
        rcases List.mem_append.mp hsec with hmem | hmem
        · exact hS sec hmem
        · exact hc sec hmem
      · intro sec hsec
        simp only [Option.toList_some, List.mem_singleton] at hsec
        subst hsec
        intro e he
        exact absurd he (by simp)
    | true =>
      cases c with
      | none =>
        rw [processLine_colon_none _ _ hcol rfl]
        exact ⟨hS, hc⟩
      | some sec =>
        cases ha : startsWithAdapter (trimStr raw) with
        | true =>
          rw [processLine_adapter _ _ sec ha rfl]
          refine ⟨hS, ?_⟩
          intro sec' hsec'
          simp only [Option.toList_some, List.mem_singleton] at hsec'
          subst hsec'
          intro e he
          exact hc sec (by simp) e he
        | false =>
          rw [processLine_entry S (some sec) raw sec hcol ha rfl]
          refine ⟨hS, ?_⟩
          intro sec' hsec'
          simp only [Option.toList_some, List.mem_singleton] at hsec'
          subst hsec'
          intro e he
          rcases List.mem_append.mp he with hmem | hmem
          · exact hc sec (by simp) e hmem
          · cases hel : entryOfLine raw with
            | none => rw [hel] at hmem; exact absurd hmem (by simp)
            | some e' =>
              rw [hel] at hmem
              simp only [Option.toList_some, List.mem_singleton] at hmem
              subst hmem
              exact entryOfLine_trimmed raw _ hel

lemma foldl_trimmed (ls : List String) :
    ∀ (S : List SensorSection) (c : Option SensorSection),
      (∀ sec ∈ S, ∀ e ∈ sec.entries, entryTrimmed e) →
      (∀ sec ∈ c.toList, ∀ e ∈ sec.entries, entryTrimmed e) →
      ∀ sec ∈ finalize (ls.foldl processLine (S, c)), ∀ e ∈ sec.entries, entryTrimmed e := by
  induction ls with
  | nil =>
    intro S c hS hc sec hsec
    rcases List.mem_append.mp hsec with hmem | hmem
    · exact hS sec hmem
    · exact hc sec hmem
  | cons l ls ih =>
    intro S c hS hc
    rw [List.foldl_cons]
    obtain ⟨hS', hc'⟩ := processLine_trimmed S c l hS hc
    rcases hp : processLine (S, c) l with ⟨S1, c1⟩
    rw [hp] at hS' hc'
    exact ih S1 c1 hS' hc'

lemma foldl_inert (ls : List String)
    (h : ∀ l ∈ ls, trimStr l = "" ∨ containsColon (trimStr l) = true) :
    ∀ S : List SensorSection, ls.foldl processLine (S, none) = (S, none) := by
  induction ls with
  | nil => intro S; rfl
  | cons l ls ih =>
    intro S
    rw [List.foldl_cons]
    rcases h l (by simp) with h0 | hc
    · rw [processLine_empty _ _ h0]
      exact ih (fun x hx => h x (by simp [hx])) S
    · rw [processLine_colon_none _ _ hc rfl]
      exact ih (fun x hx => h x (by simp [hx])) S

lemma processLine_skip (st : List SensorSection × Option SensorSection) (raw : String)
    (hc : containsColon (trimStr raw) = true)
    (hna : startsWithAdapter (trimStr raw) = false)
    (hm : entryCaptures (trimStr raw) = none) : processLine st raw = st := by
  rcases st with ⟨S, c⟩
  cases c with
  | none => exact processLine_colon_none _ _ hc rfl
  | some sec =>
    rw [processLine_entry S (some sec) raw sec hc hna rfl]
    have he : entryOfLine raw = none := by
      rw [entryOfLine, if_neg (containsColon_ne_empty hc), if_neg (by simp [hna]), hm]
    rw [he]
    simp

/-- C1: parsing the three-line example input succeeds with exactly one
section named coretemp-isa-0000, adapter ISA adapter, and a single entry
with key Core 0, value +45.0°C and the high/crit annotation. -/
theorem c1_example_parse :
    parse_sensor_output
        "coretemp-isa-0000\nAdapter: ISA adapter\nCore 0:       +45.0°C  (high = +80.0°C, crit = +100.0°C)" =
      .ok [⟨"coretemp-isa-0000", "ISA adapter",
        [⟨"Core 0", "+45.0°C", some "high = +80.0°C, crit = +100.0°C"⟩]⟩] := by decide

/-- C2, counterexample: the line a: b: +1 is accepted with key a: b,
which extends past the first colon-followed-by-whitespace separator,
whose prefix is just a. -/
theorem c2_counterexample :
    entryCaptures "a: b: +1" = some ("a: b", "+1", none) ∧
    upToColonWs ("a: b: +1" : String).data = some ("a" : String).data ∧
    ("a: b" : String).data ≠ ("a" : String).data :=
  ⟨by decide, by decide, by decide⟩

/-- C2, amended: for every accepted line the key is delimited by a colon
whose remainder matches the rest of the entry pattern, and no earlier
colon inside the key has a matching remainder — the key stops at the
first viable colon separator, which need not be the first
colon-plus-whitespace occurrence. -/
theorem c2_key_first_viable_separator (line k v : String) (i : Option String)
    (h : entryCaptures line = some (k, v, i)) :
    (∃ r, line.data = k.data ++ ':' :: r ∧ afterColon r ≠ none) ∧
    ∀ j, 1 ≤ j → j < k.data.length → line.data.get? j = some ':' →
      afterColon (line.data.drop (j + 1)) = none := by
  obtain ⟨r, hs, -, ⟨iL, hac, -⟩, hmin⟩ := entryCaptures_sound line k v i h
  exact ⟨⟨r, hs, by rw [hac]; simp⟩, hmin⟩

/-- C2, witness: the amended statement instantiated on the line a: +1. -/
theorem c2_witness :
    entryCaptures "a: +1" = some ("a", "+1", none) ∧
    ((∃ r, ("a: +1" : String).data = ("a" : String).data ++ ':' :: r ∧ afterColon r ≠ none) ∧
      ∀ j, 1 ≤ j → j < ("a" : String).data.length →
        ("a: +1" : String).data.get? j = some ':' →
          afterColon (("a: +1" : String).data.drop (j + 1)) = none) :=
  ⟨by decide, c2_key_first_viable_separator "a: +1" "a" "+1" none (by decide)⟩

/-- C3, counterexample: the line k : +1 inside a section yields an entry
whose stored key is exactly k with a trailing space, so the stored key is
not trimmed. -/
theorem c3_counterexample :
    parse_sensor_output "h\nk : +1" = .ok [⟨"h", "", [⟨"k ", "+1", none⟩]⟩] ∧
    trimStr "k " ≠ "k " :=
  ⟨by decide, by decide⟩

/-- C3, amended: every entry the parse produces has a fully trimmed value
and a key without leading whitespace; the key may keep trailing
whitespace that precedes its colon. -/
theorem c3_value_trimmed_key_no_leading_ws (ls : List String) (ss : List SensorSection)
    (h : parseLines ls = .ok ss) :
    ∀ sec ∈ ss, ∀ e ∈ sec.entries,
      trimStr e.value = e.value ∧ e.key.data.dropWhile isWs = e.key.data := by
  rw [parseLines] at h
  by_cases hemp : finalSections ls = []
  · rw [if_pos hemp] at h
    exact absurd h (by simp)
  · rw [if_neg hemp] at h
    simp only [Except.ok.injEq] at h
    rw [← h]
    exact foldl_trimmed ls [] none (by simp) (by simp)

/-- C3, witness: the amended statement instantiated on a one-entry parse. -/
theorem c3_witness :
    parseLines ["h", "k: +1"] = .ok [⟨"h", "", [⟨"k", "+1", none⟩]⟩] ∧
    ∀ sec ∈ ([⟨"h", "", [⟨"k", "+1", none⟩]⟩] : List SensorSection), ∀ e ∈ sec.entries,
      trimStr e.value = e.value ∧ e.key.data.dropWhile isWs = e.key.data :=
  ⟨by decide, c3_value_trimmed_key_no_leading_ws ["h", "k: +1"] _ (by decide)⟩

/-- C4, counterexample: on the line Adapter: Adapter: X the code removes
every occurrence of the marker, storing X, while removing only the
leading marker once would store Adapter: X. -/
theorem c4_counterexample :
    parse_sensor_output "h\nAdapter: Adapter: X" = .ok [⟨"h", "X", []⟩] ∧
    String.mk (trimChars (stripAdapterOnce (trimStr "Adapter: Adapter: X").data)) =
      "Adapter: X" ∧
    ("X" : String) ≠ "Adapter: X" :=
  ⟨by decide, by decide, by decide⟩

/-- C4, amended: an adapter line sets the open section's adapter to the
line with every occurrence of the marker removed and re-trimmed,
overwriting any prior value; after a header and two adapter lines the
stored adapter comes from the second line. -/
theorem c4_adapter_replace_all_overwrite (h a1 a2 : String)
    (hh0 : trimStr h ≠ "") (hhc : containsColon (trimStr h) = false)
    (ha1 : startsWithAdapter (trimStr a1) = true)
    (ha2 : startsWithAdapter (trimStr a2) = true) :
    parseLines [h, a1, a2] = .ok [⟨trimStr h, adapterValOf a2, []⟩] := by
  have hfold : List.foldl processLine ([], none) [h, a1, a2] =
      ([], some ⟨trimStr h, adapterValOf a2, []⟩) := by
    rw [List.foldl_cons, List.foldl_cons, List.foldl_cons, List.foldl_nil,
      processLine_header _ _ hh0 hhc,
      processLine_adapter _ _ ⟨trimStr h, "", []⟩ ha1 rfl,
      processLine_adapter _ _ ⟨trimStr h, adapterValOf a1, []⟩ ha2 rfl]
    rfl
  rw [parseLines, finalSections, hfold]
  simp [finalize]

/-- C4, witness: the amended statement instantiated on a header and two
concrete adapter lines. -/
theorem c4_witness :
    trimStr "chip0" ≠ "" ∧ containsColon (trimStr "chip0") = false ∧
    startsWithAdapter (trimStr "Adapter: A") = true ∧
    startsWithAdapter (trimStr "Adapter: B") = true ∧
    parseLines ["chip0", "Adapter: A", "Adapter: B"] =
      .ok [⟨trimStr "chip0", adapterValOf "Adapter: B", []⟩] :=
  ⟨by decide, by decide, by decide, by decide,
    c4_adapter_replace_all_overwrite "chip0" "Adapter: A" "Adapter: B"
      (by decide) (by decide) (by decide) (by decide)⟩

/-- C5, counterexample: the line Adapter: x contains a colon and does not
match the entry grammar, yet deleting it changes the parse result, since
it sets the open section's adapter. -/
theorem c5_counterexample :
    trimStr "Adapter: x" ≠ "" ∧
    containsColon (trimStr "Adapter: x") = true ∧
    entryCaptures (trimStr "Adapter: x") = none ∧
    parseLines ["h", "Adapter: x"] ≠ parseLines ["h"] :=
  ⟨by decide, by decide, by decide, by decide⟩

/-- C5, amended: a line that contains a colon, does not begin with the
adapter marker after trimming, and does not match the entry grammar end
to end produces no entry, no error, and leaves the result equal to the
parse of the same lines with that line deleted. -/
theorem c5_tolerant_skip (pre post : List String) (l : String)
    (hc : containsColon (trimStr l) = true)
    (hna : startsWithAdapter (trimStr l) = false)
    (hm : entryCaptures (trimStr l) = none) :
    parseLines (pre ++ l :: post) = parseLines (pre ++ post) := by
  have hfs : finalSections (pre ++ l :: post) = finalSections (pre ++ post) := by
    rw [finalSections, finalSections, List.foldl_append, List.foldl_append,
      List.foldl_cons, processLine_skip _ _ hc hna hm]
  rw [parseLines, parseLines, hfs]

/-- C5, witness: the amended statement instantiated on the rejected line
foo: 1x between two recognized lines. -/
theorem c5_witness :
    containsColon (trimStr "foo: 1x") = true ∧
    startsWithAdapter (trimStr "foo: 1x") = false ∧
    entryCaptures (trimStr "foo: 1x") = none ∧
    parseLines (["h"] ++ "foo: 1x" :: ["Core 0: +45.0°C"]) =
      parseLines (["h"] ++ ["Core 0: +45.0°C"]) :=
  ⟨by decide, by decide, by decide,
    c5_tolerant_skip ["h"] ["Core 0: +45.0°C"] "foo: 1x" (by decide) (by decide) (by decide)⟩

/-- C6: the parse fails with the no-data error exactly when the loop
produced zero sections, in particular whenever every line is empty after
trimming, and a successful parse never returns an empty section list. -/
theorem c6_no_data_error (input : String) :
    ((∀ l ∈ rustLines input, trimStr l = "") →
      parse_sensor_output input = .error "No sensor data found") ∧
    (∀ ss, parse_sensor_output input = .ok ss → ss ≠ []) ∧
    (parse_sensor_output input = .error "No sensor data found" ↔
      finalSections (rustLines input) = []) := by
  refine ⟨?_, ?_, ?_, ?_⟩
  · intro h
    have hemp : finalSections (rustLines input) = [] := by
      rw [finalSections, foldl_inert _ (fun l hl => Or.inl (h l hl)) []]
      rfl
    rw [parse_sensor_output, parseLines, if_pos hemp]
  · intro ss h
    rw [parse_sensor_output, parseLines] at h
    by_cases hemp : finalSections (rustLines input) = []
    · rw [if_pos hemp] at h
      exact absurd h (by simp)
    · rw [if_neg hemp] at h
      simp only [Except.ok.injEq] at h
      rw [← h]
      exact hemp
  · intro h
    by_contra hemp
    rw [parse_sensor_output, parseLines, if_neg hemp] at h
    exact absurd h (by simp)
  · intro hemp
    rw [parse_sensor_output, parseLines, if_pos hemp]

/-- C6, witness: instantiated on whitespace-only input. -/
theorem c6_witness :
    (∀ l ∈ rustLines " \n\t ", trimStr l = "") ∧
    parse_sensor_output " \n\t " = .error "No sensor data found" :=
  ⟨by decide, (c6_no_data_error " \n\t ").1 (by decide)⟩

/-- C7: a header line immediately followed by another header line yields
a section for the first header with empty adapter and empty entries, at
the position right after the sections contributed by the preceding
lines. -/
theorem c7_empty_section_retained (pre post : List String) (h1 h2 : String)
    (h10 : trimStr h1 ≠ "") (h1c : containsColon (trimStr h1) = false)
    (h20 : trimStr h2 ≠ "") (h2c : containsColon (trimStr h2) = false) :
    ∃ ss, parseLines (pre ++ h1 :: h2 :: post) = .ok ss ∧
      ss.get? (finalSections pre).length = some ⟨trimStr h1, "", []⟩ := by
  rcases hst : pre.foldl processLine ([], none) with ⟨S, c⟩
  have hpre : finalSections pre = S ++ c.toList := by
    rw [finalSections, hst]
    rfl
  have hfold : finalSections (pre ++ h1 :: h2 :: post) =
      (S ++ c.toList) ++ ([⟨trimStr h1, "", []⟩] ++
        ((post.foldl processLine ([], some ⟨trimStr h2, "", []⟩)).1 ++
          (post.foldl processLine ([], some ⟨trimStr h2, "", []⟩)).2.toList)) := by
    rw [finalSections, List.foldl_append, hst, List.foldl_cons, List.foldl_cons,
      processLine_header _ _ h10 h1c,
      processLine_header _ _ h20 h2c,
      foldl_processLine_fst, finalize]
    simp
  have hne : finalSections (pre ++ h1 :: h2 :: post) ≠ [] := by
    rw [hfold]
    simp
  refine ⟨finalSections (pre ++ h1 :: h2 :: post), ?_, ?_⟩
  · rw [parseLines, if_neg hne]
  · rw [hfold, hpre, List.get?_append_right (Nat.le_refl _)]
    simp

/-- C7, witness: instantiated on two adjacent concrete headers. -/
theorem c7_witness :
    trimStr "a" ≠ "" ∧ containsColon (trimStr "a") = false ∧
    trimStr "b" ≠ "" ∧ containsColon (trimStr "b") = false ∧
    ∃ ss, parseLines (([] : List String) ++ "a" :: "b" :: []) = .ok ss ∧
      ss.get? (finalSections ([] : List String)).length = some ⟨trimStr "a", "", []⟩ :=
  ⟨by decide, by decide, by decide, by decide,
    c7_empty_section_retained [] [] "a" "b" (by decide) (by decide) (by decide) (by decide)⟩

/-- C8: a successful parse returns exactly the sections described by the
order-preserving grouping of the lines: one section per header line, in
first-appearance order, whose entries follow the line order of its
block. -/
theorem c8_order_preservation (ls : List String) (ss : List SensorSection)
    (h : parseLines ls = .ok ss) : ss = specParse ls := by
  rw [parseLines] at h
  by_cases hemp : finalSections ls = []
  · rw [if_pos hemp] at h
    exact absurd h (by simp)
  · rw [if_neg hemp] at h
    simp only [Except.ok.injEq] at h
    rw [← h, finalSections_eq_specParse]

/-- C8, witness: instantiated on a two-section input. -/
theorem c8_witness :
    parseLines ["A", "x: +1", "B", "y: 7 RPM"] =
      .ok [⟨"A", "", [⟨"x", "+1", none⟩]⟩, ⟨"B", "", [⟨"y", "7 RPM", none⟩]⟩] ∧
    [⟨"A", "", [⟨"x", "+1", none⟩]⟩, ⟨"B", "", [⟨"y", "7 RPM", none⟩]⟩] =
      specParse ["A", "x: +1", "B", "y: 7 RPM"] :=
  ⟨by decide, c8_order_preservation _ _ (by decide)⟩

/-- C9: a refresh tick overwrites the single state slot with the freshly
produced result regardless of the previous value; in particular a
success state followed by a failed command leaves only the error. -/
theorem c9_refresh_overwrite (st : SensorViewer) (oc : CommandOutcome) :
    (SensorViewer.update st Message.Refresh oc).sensor_data = read_sensor_data oc ∧
    ∀ (A : List SensorSection) (e : String),
      (SensorViewer.update ⟨.ok A⟩ Message.Refresh (.launchFailure e)).sensor_data =
        .error ("Failed to execute sensors command: " ++ e) :=
  ⟨rfl, fun _ _ => rfl⟩

/-- C10: lines before the first header are ignored, so prepending lines
that are empty or contain a colon never changes the result, and an input
whose non-empty lines all contain a colon parses to the no-data error. -/
theorem c10_preheader_ignored (pre rest : List String)
    (hp : ∀ l ∈ pre, trimStr l = "" ∨ containsColon (trimStr l) = true) :
    parseLines (pre ++ rest) = parseLines rest ∧
    parseLines pre = .error "No sensor data found" := by
  have hf : pre.foldl processLine ([], none) = ([], none) := foldl_inert pre hp []
  constructor
  · have hfs : finalSections (pre ++ rest) = finalSections rest := by
      rw [finalSections, List.foldl_append, hf, finalSections]
    rw [parseLines, parseLines, hfs]
  · have hemp : finalSections pre = [] := by
      rw [finalSections, hf]
      rfl
    rw [parseLines, if_pos hemp]

/-- C10, witness: instantiated on an adapter line and an entry line
before the first header. -/
theorem c10_witness :
    (∀ l ∈ (["Adapter: ISA", "Core 0: +45.0°C"] : List String),
      trimStr l = "" ∨ containsColon (trimStr l) = true) ∧
    parseLines (["Adapter: ISA", "Core 0: +45.0°C"] ++ ["h"]) = parseLines ["h"] ∧
    parseLines ["Adapter: ISA", "Core 0: +45.0°C"] = .error "No sensor data found" :=
  ⟨by decide, (c10_preheader_ignored ["Adapter: ISA", "Core 0: +45.0°C"] ["h"] (by decide)).1,
    (c10_preheader_ignored ["Adapter: ISA", "Core 0: +45.0°C"] ["h"] (by decide)).2⟩

end Monitor
